import Mathlib

/-!
Shallow embedding of the chunkymonkey server core: the reflection-driven
packet codec (package `proto`), the inventory slot operations (package
`inventory`), the chunk manager (package `chunk`) and the player session
(package `main`), together with theorems settling the specification claims.

Machine integers are modelled as `Nat` bit patterns (a Go `intN`/`uintN`
field is in bijection with its N-bit pattern; the codec only moves
patterns).  Floats are likewise modelled by their IEEE-754 bit patterns:
the codec converts bits to floats and back with `math.Float32bits` /
`math.Float32frombits`, which are mutually inverse, and performs no float
arithmetic.  Byte streams are `List Nat` with each element a byte value.
-/

set_option maxRecDepth 10000

namespace proto

/-- Error values mirroring the package-level error variables of the
serializer (`ErrorLengthNegative`, `ErrorStrTooLong`, short reads from
`io.ReadFull` / `binary.Read`, and `ErrorInternal`). -/
inductive Err where
  | shortRead
  | negativeLength
  | strTooLong
  | internal
  deriving DecidableEq, Repr

/-- Big-endian byte decomposition: the low `n` bytes of `p`, most
significant first (mirrors `binary.BigEndian.PutUintN`, which truncates
its argument to N bits). -/
def natToBytes : Nat → Nat → List Nat
  | 0, _ => []
  | n + 1, p => natToBytes n (p / 256) ++ [p % 256]

/-- Big-endian byte recomposition (mirrors `binary.BigEndian.UintN`). -/
def bytesToNat (bs : List Nat) : Nat :=
  bs.foldl (fun a b => a * 256 + b) 0

/-- Number of UTF-8 bytes Go uses for one code point; `len(s)` of a Go
string is the sum of these over its code points. -/
def utf8CpLen (c : Nat) : Nat :=
  if c < 0x80 then 1 else if c < 0x800 then 2 else if c < 0x10000 then 3 else 4

/-- The Go `len` of the in-memory UTF-8 string holding the code points
`cps`. -/
def utf8Len (cps : List Nat) : Nat :=
  (cps.map utf8CpLen).sum

/-- Modelled from the spec: the source function `decodeUtf8` (called by
`PacketSerializer.writeData`, not under src/) decodes the in-memory UTF-8
string to code points and emits each as 1 or 2 UTF-16 code units (§4.A
"String transcoding"); a supplementary-plane code point becomes a
surrogate pair. -/
def decodeUtf8 : List Nat → List Nat
  | [] => []
  | c :: rest =>
    if c < 0x10000 then c :: decodeUtf8 rest
    else (0xD800 + (c - 0x10000) / 0x400) :: (0xDC00 + (c - 0x10000) % 0x400) :: decodeUtf8 rest

/-- Modelled from the spec: the source function `encodeUtf8` (called by
`PacketSerializer.readData`, not under src/) reassembles 16-bit code units
into code points, honouring surrogate pairs (§4.A); a unit that is not
part of a well-formed pair is kept as-is. -/
def encodeUtf8 : List Nat → List Nat
  | [] => []
  | [u] => [u]
  | u1 :: u2 :: rest =>
    if 0xD800 ≤ u1 ∧ u1 < 0xDC00 ∧ 0xDC00 ≤ u2 ∧ u2 < 0xE000 then
      (0x10000 + (u1 - 0xD800) * 0x400 + (u2 - 0xDC00)) :: encodeUtf8 rest
    else u1 :: encodeUtf8 (u2 :: rest)

/-- Each 16-bit code unit as two big-endian bytes (mirrors
`binary.Write(writer, binary.BigEndian, codepoints)`). -/
def unitsToBytes : List Nat → List Nat
  | [] => []
  | u :: rest => natToBytes 2 u ++ unitsToBytes rest

/-- Consecutive byte pairs as 16-bit code units (mirrors
`binary.Read(reader, binary.BigEndian, codepoints)`). -/
def bytesToUnits : List Nat → List Nat
  | b0 :: b1 :: rest => (b0 * 256 + b1) :: bytesToUnits rest
  | _ => []

/-- The field kinds `PacketSerializer.readData` / `writeData` switch on.
A nested struct field serialises as the concatenation of its fields in
declaration order, so a packet record is modelled by its flattened field
list.  Slice fields without a custom marshaler return `ErrorInternal` and
custom-codec hooks are out of the generic path modelled here. -/
inductive FieldType where
  | boolF
  | int8F | int16F | int32F | int64F
  | uint8F | uint16F | uint32F | uint64F
  | float32F | float64F
  | stringF
  deriving DecidableEq, Repr

/-- In-memory field values.  Integer and float fields carry their N-bit
patterns; a string field carries its list of Unicode code points (the Go
string holds their UTF-8 encoding). -/
inductive FieldValue where
  | boolV (b : Bool)
  | int8V (p : Nat) | int16V (p : Nat) | int32V (p : Nat) | int64V (p : Nat)
  | uint8V (p : Nat) | uint16V (p : Nat) | uint32V (p : Nat) | uint64V (p : Nat)
  | float32V (p : Nat) | float64V (p : Nat)
  | strV (cps : List Nat)
  deriving DecidableEq, Repr

/-- The declared field kind a value inhabits. -/
def typeOf : FieldValue → FieldType
  | .boolV _ => .boolF
  | .int8V _ => .int8F
  | .int16V _ => .int16F
  | .int32V _ => .int32F
  | .int64V _ => .int64F
  | .uint8V _ => .uint8F
  | .uint16V _ => .uint16F
  | .uint32V _ => .uint32F
  | .uint64V _ => .uint64F
  | .float32V _ => .float32F
  | .float64V _ => .float64F
  | .strV _ => .stringF

/-- Read `n` bytes from the stream (mirrors `io.ReadFull` into
`ps.scratch[0:n]`): on a short stream the available bytes are consumed
and the read fails. -/
def readBytes (n : Nat) (s : List Nat) : (Except Err (List Nat)) × List Nat :=
  if n ≤ s.length then (Except.ok (s.take n), s.drop n)
  else (Except.error Err.shortRead, [])

/-- Read one fixed-width big-endian scalar (the shared shape of the
numeric cases of `readData`). -/
def readScalar (n : Nat) (mk : Nat → FieldValue) (s : List Nat) :
    (Except Err FieldValue) × List Nat :=
  match readBytes n s with
  | (Except.ok bs, rest) => (Except.ok (mk (bytesToNat bs)), rest)
  | (Except.error e, rest) => (Except.error e, rest)

/-- `PacketSerializer.readData`, one field: the switch on the field kind.
The result pairs the outcome with the remaining stream, so consumption on
error is visible. -/
def readData : FieldType → List Nat → (Except Err FieldValue) × List Nat
  | .boolF, s =>
    match readBytes 1 s with
    | (Except.ok bs, rest) => (Except.ok (.boolV (bytesToNat bs != 0)), rest)
    | (Except.error e, rest) => (Except.error e, rest)
  | .int8F, s => readScalar 1 .int8V s
  | .int16F, s => readScalar 2 .int16V s
  | .int32F, s => readScalar 4 .int32V s
  | .int64F, s => readScalar 8 .int64V s
  | .uint8F, s => readScalar 1 .uint8V s
  | .uint16F, s => readScalar 2 .uint16V s
  | .uint32F, s => readScalar 4 .uint32V s
  | .uint64F, s => readScalar 8 .uint64V s
  | .float32F, s => readScalar 4 .float32V s
  | .float64F, s => readScalar 8 .float64V s
  | .stringF, s =>
    match readBytes 2 s with
    | (Except.error e, rest) => (Except.error e, rest)
    | (Except.ok pre, rest) =>
      -- length := int16(binary.BigEndian.Uint16(..)); negative iff the
      -- sign bit of the 16-bit pattern is set
      let lenPat := bytesToNat pre
      if 0x8000 ≤ lenPat then (Except.error Err.negativeLength, rest)
      else
        match readBytes (2 * lenPat) rest with
        | (Except.error e, rest2) => (Except.error e, rest2)
        | (Except.ok ubytes, rest2) =>
          (Except.ok (.strV (encodeUtf8 (bytesToUnits ubytes))), rest2)

/-- `PacketSerializer.writeData`, one field: the switch on the value kind.
The writer is a `bytes.Buffer`, threaded as the second component; on the
string-too-long failure nothing has been appended. -/
def writeData (v : FieldValue) (buf : List Nat) : (Except Err Unit) × List Nat :=
  match v with
  | .boolV b => (Except.ok (), buf ++ [if b then 1 else 0])
  | .int8V p => (Except.ok (), buf ++ natToBytes 1 p)
  | .int16V p => (Except.ok (), buf ++ natToBytes 2 p)
  | .int32V p => (Except.ok (), buf ++ natToBytes 4 p)
  | .int64V p => (Except.ok (), buf ++ natToBytes 8 p)
  | .uint8V p => (Except.ok (), buf ++ natToBytes 1 p)
  | .uint16V p => (Except.ok (), buf ++ natToBytes 2 p)
  | .uint32V p => (Except.ok (), buf ++ natToBytes 4 p)
  | .uint64V p => (Except.ok (), buf ++ natToBytes 8 p)
  | .float32V p => (Except.ok (), buf ++ natToBytes 4 p)
  | .float64V p => (Except.ok (), buf ++ natToBytes 8 p)
  | .strV cps =>
    -- lengthInt := value.Len() is the byte length of the UTF-8 string
    if 32767 < utf8Len cps then (Except.error Err.strTooLong, buf)
    else (Except.ok (), buf ++ natToBytes 2 (utf8Len cps) ++ unitsToBytes (decodeUtf8 cps))

/-- `PacketSerializer.ReadPacket` on a (flattened) packet record: fields
are filled in declaration order; the first failure stops the walk. -/
def ReadPacket : List FieldType → List Nat → (Except Err (List FieldValue)) × List Nat
  | [], s => (Except.ok [], s)
  | t :: ts, s =>
    match readData t s with
    | (Except.ok v, r) =>
      match ReadPacket ts r with
      | (Except.ok vs, r2) => (Except.ok (v :: vs), r2)
      | (Except.error e, r2) => (Except.error e, r2)
    | (Except.error e, r) => (Except.error e, r)

/-- `PacketSerializer.WritePacket` on a (flattened) packet record: fields
are emitted in declaration order into the buffer; the first failure stops
the walk. -/
def WritePacket : List FieldValue → List Nat → (Except Err Unit) × List Nat
  | [], buf => (Except.ok (), buf)
  | v :: vs, buf =>
    match writeData v buf with
    | (Except.ok _, b) => WritePacket vs b
    | (Except.error e, b) => (Except.error e, b)

/-- A value is canonical-ASCII when its integer / float pattern fits its
declared width and any string holds only ASCII code points, few enough to
encode. -/
def wfAscii : FieldValue → Bool
  | .boolV _ => true
  | .int8V p => decide (p < 2 ^ 8)
  | .int16V p => decide (p < 2 ^ 16)
  | .int32V p => decide (p < 2 ^ 32)
  | .int64V p => decide (p < 2 ^ 64)
  | .uint8V p => decide (p < 2 ^ 8)
  | .uint16V p => decide (p < 2 ^ 16)
  | .uint32V p => decide (p < 2 ^ 32)
  | .uint64V p => decide (p < 2 ^ 64)
  | .float32V p => decide (p < 2 ^ 32)
  | .float64V p => decide (p < 2 ^ 64)
  | .strV cps => cps.all (fun c => decide (c < 128)) && decide (cps.length < 32768)

end proto

namespace inventory

/-- Modelled from the spec: the null item id sentinel `ItemIdNull` lives in
the `types` package, which is not under src/; its concrete value is never
relied on below, only that it is one distinguished id. -/
def ItemIdNull : Int := -1

/-- `SlotQuantityMax = ItemCount(64)`.  The `ItemCount` / `ItemId` /
`ItemUses` named integer types live in the `types` package (not under
src/); per the source comment `2*SlotQuantityMax` does not overflow
`ItemCount`, so they are modelled as unbounded integers. -/
def SlotQuantityMax : Int := 64

/-- An inventory slot (`inventory.Slot`). -/
structure Slot where
  ItemType : Int
  Quantity : Int
  Uses : Int
  deriving DecidableEq, Repr

/-- `Slot.Init`. -/
def Slot.Init : Slot :=
  { ItemType := ItemIdNull, Quantity := 0, Uses := 0 }

/-- `Slot.setQuantity`: sets the quantity and normalises an emptied slot. -/
def Slot.setQuantity (s : Slot) (quantity : Int) : Slot :=
  let s := { s with Quantity := quantity }
  if s.Quantity = 0 then { s with ItemType := ItemIdNull, Uses := 0 } else s

/-- `Slot.Add`: moves as many items as possible from `src` into the
subject slot `s`; returns the updated `(s, src)` pair (the Go method
mutates two distinct slots through pointers). -/
def Slot.Add (s src : Slot) : Slot × Slot :=
  if s.ItemType ≠ ItemIdNull ∧ s.ItemType ≠ src.ItemType then (s, src)
  else if s.ItemType ≠ ItemIdNull ∧ s.Uses ≠ src.Uses then (s, src)
  else if s.Quantity ≥ SlotQuantityMax then (s, src)
  else
    let s1 := { s with ItemType := src.ItemType }
    let toTransfer0 := src.Quantity
    let toTransfer :=
      if s1.Quantity + toTransfer0 > SlotQuantityMax then SlotQuantityMax - s1.Quantity
      else toTransfer0
    let s2 := { s1 with Uses := src.Uses }
    let s3 := s2.setQuantity (s2.Quantity + toTransfer)
    let src1 := src.setQuantity (src.Quantity - toTransfer)
    (s3, src1)

/-- Two's-complement wraparound at width `w`: the value a width-`w` Go
integer operation yields when its mathematical result is `n`.  The
`types` package defining `ItemCount` is not under src/; it is some
fixed-width Go integer type, so its arithmetic wraps at that width. -/
def wrap (w : Nat) (n : Int) : Int :=
  (n + 2 ^ (w - 1)) % 2 ^ w - 2 ^ (w - 1)

/-- `Slot.Add` with every `ItemCount` arithmetic operation performed at
the (unknown) width `w` of the `ItemCount` type: the stacking-guard sum,
the clamp difference and the two quantity updates all wrap.  The source
NOTE assumes `2*SlotQuantityMax` does not overflow `ItemCount`, i.e.
`2 * SlotQuantityMax < 2 ^ (w - 1)`; on quantities in
`[0, SlotQuantityMax]` every intermediate stays within that capacity and
this agrees with the wrap-free `Slot.Add` above
(`Slot.AddAtWidth_eq_Add`). -/
def Slot.AddAtWidth (w : Nat) (s src : Slot) : Slot × Slot :=
  if s.ItemType ≠ ItemIdNull ∧ s.ItemType ≠ src.ItemType then (s, src)
  else if s.ItemType ≠ ItemIdNull ∧ s.Uses ≠ src.Uses then (s, src)
  else if s.Quantity ≥ SlotQuantityMax then (s, src)
  else
    let s1 := { s with ItemType := src.ItemType }
    let toTransfer0 := src.Quantity
    let toTransfer :=
      if wrap w (s1.Quantity + toTransfer0) > SlotQuantityMax then
        wrap w (SlotQuantityMax - s1.Quantity)
      else toTransfer0
    let s2 := { s1 with Uses := src.Uses }
    let s3 := s2.setQuantity (wrap w (s2.Quantity + toTransfer))
    let src1 := src.setQuantity (wrap w (src.Quantity - toTransfer))
    (s3, src1)

/-- The slot normalisation invariant: an empty slot holds the null item
id and zero uses. -/
def slotInv (s : Slot) : Prop :=
  s.Quantity = 0 → s.ItemType = ItemIdNull ∧ s.Uses = 0

instance (s : Slot) : Decidable (slotInv s) := by
  unfold slotInv; infer_instance

end inventory

namespace chunk

/-- Chunk coordinates `(cx, cz : int32)` (`types.ChunkXz`; the `types`
package is not under src/, the field types are given by the spec §3).
Coordinates are modelled as unbounded integers; the embedding is exact on
the non-overflowing `int32` range. -/
structure ChunkXz where
  X : Int
  Z : Int
  deriving DecidableEq, Repr

/-- Modelled from the spec: `ChunkXz.ChunkKey` (in the `types` package,
not under src/) is the stable 64-bit key
`(uint64(uint32(cx)) << 32) | uint64(uint32(cz))` (§3). -/
def ChunkKey (loc : ChunkXz) : Nat :=
  (loc.X % 2 ^ 32).toNat * 2 ^ 32 + (loc.Z % 2 ^ 32).toNat

/-- Modelled from the spec: the chunk radius constant from the `types`
package (not under src/); spec default R = 10. -/
def ChunkRadius : Int := 10

/-- A loaded chunk, abstracted to its coordinate.  `newChunkFromReader`
builds it from the store's reader; the voxel payload and the side-cache
neighbour links (updated only through enqueued closures, which never
touch the manager's map) do not bear on the claims below. -/
structure Chunk where
  loc : ChunkXz
  deriving DecidableEq, Repr

/-- The external chunk store, collapsed with `newChunkFromReader`:
`LoadChunk` either yields a reader from which the chunk is built, or
fails (returned as `none`). -/
def ChunkStore : Type := ChunkXz → Option Chunk

/-- The manager's chunk map, an association from `ChunkKey` to the loaded
chunk (entries are only ever added on a miss, so keys are unique). -/
def ChunkMap : Type := List (Nat × Chunk)

/-- `ChunkManager.Get`: return the cached chunk on a hit; otherwise ask
the store — on failure log and return `nil` without touching the map, on
success insert the new chunk under its key.  The third component records
whether the external store was invoked. -/
def Get (store : ChunkStore) (chunks : ChunkMap) (loc : ChunkXz) :
    Option Chunk × ChunkMap × Bool :=
  match List.lookup (ChunkKey loc) chunks with
  | some c => (some c, chunks, false)
  | none =>
    match store loc with
    | none => (none, chunks, true)
    | some c => (some c, (ChunkKey loc, c) :: chunks, true)

/-- The value list of the Go loop `for v := lo; v < hi; v++` (exact when
the `int32` bounds do not overflow). -/
def intRange (lo hi : Int) : List Int :=
  (List.range (hi - lo).toNat).map (fun (i : Nat) => lo + (i : Int))

/-- One loop body of `ChunksInRadius`: call `mgr.Get` on the current
coordinate against the threaded map and send the result — nil included —
on the channel (modelled by appending it, tagged with the coordinate). -/
def radiusStep (store : ChunkStore) (acc : List (ChunkXz × Option Chunk) × ChunkMap)
    (c : ChunkXz) : List (ChunkXz × Option Chunk) × ChunkMap :=
  let r := Get store acc.2 c
  (acc.1 ++ [(c, r.1)], r.2.1)

/-- `ChunkManager.ChunksInRadius`: iterate `z` from `Z-R` to `Z+R`
inclusive (outer) and `x` likewise (inner), sending the result of
`mgr.Get` for each coordinate.  The emitted sequence is modelled as a
list tagged with the loop coordinate; the map is threaded through the
`Get` calls. -/
def ChunksInRadius (store : ChunkStore) (chunks : ChunkMap) (loc : ChunkXz) :
    List (ChunkXz × Option Chunk) × ChunkMap :=
  ((intRange (loc.Z - ChunkRadius) (loc.Z + ChunkRadius + 1)).flatMap fun z =>
    (intRange (loc.X - ChunkRadius) (loc.X + ChunkRadius + 1)).map fun x =>
      ChunkXz.mk x z).foldl (radiusStep store) ([], chunks)

/-- The row-major window of the spec's words: every chunk within radius R
of the centre, Z as the outer loop and X as the inner loop. -/
def specRadiusWindow (loc : ChunkXz) : List ChunkXz :=
  (intRange (loc.Z - ChunkRadius) (loc.Z + ChunkRadius + 1)).flatMap fun z =>
    (intRange (loc.X - ChunkRadius) (loc.X + ChunkRadius + 1)).map fun x =>
      ChunkXz.mk x z

end chunk

namespace player

/-- `XYZ = (x, y, z : float64)` in world units.  The start position and
the movement-packet positions are exact decimals, so coordinates are
modelled as rationals. -/
structure XYZ where
  x : ℚ
  y : ℚ
  z : ℚ
  deriving DecidableEq, Repr

/-- `Orientation` with fields `rotation` (yaw) and `pitch`, degrees. -/
structure Orientation where
  rotation : ℚ
  pitch : ℚ
  deriving DecidableEq, Repr

/-- Modelled from the spec: `StartPosition` is defined outside src/; the
spec fixes the spawn position at `(8.5, 65.0, 8.5)` (§8 S1). -/
def StartPosition : XYZ := { x := 8.5, y := 65.0, z := 8.5 }

/-- Modelled from the spec: `ChunkSizeX` / `ChunkSizeZ` are in the
`types` package (not under src/); a chunk is a 16×128×16 column (§3). -/
def ChunkSizeX : Int := 16

/-- Modelled from the spec: see `ChunkSizeX`. -/
def ChunkSizeZ : Int := 16

/-- `chunkRadius = 10` from player.go. -/
def chunkRadius : Int := 10

/-- The Go conversion `int32(f)` of a float, truncation toward zero
(exact on the non-overflowing range; only small spawn coordinates are
converted below). -/
def goInt (q : ℚ) : Int :=
  Int.tdiv q.num (q.den : Int)

/-- The player session state the claims touch: stored position and
orientation (connection handle, transmit queue and entity id omitted —
no modelled operation reads them). -/
structure Player where
  position : XYZ
  orientation : Orientation
  deriving DecidableEq, Repr

/-- `Player.PacketPlayerPosition`: the handler logs the received values
and returns; the session state is not modified. -/
def Player.PacketPlayerPosition (player : Player) (_position : XYZ) (_stance : ℚ)
    (_flying : Bool) : Player :=
  player

/-- `Player.PacketPlayerLook`: the handler logs the received values and
returns; the session state is not modified. -/
def Player.PacketPlayerLook (player : Player) (_orientation : Orientation)
    (_flying : Bool) : Player :=
  player

/-- The packets `postLogin` serialises into its buffer, abstracted to
their identities: a map-chunk packet is tagged with the coordinate of the
chunk passed to `WriteMapChunk`. -/
inductive Packet where
  | spawnPosition (pos : XYZ)
  | preChunk (x z : Int) (mode : Bool)
  | mapChunk (x z : Int)
  | playerInventory
  | playerPositionLook (pos : XYZ) (o : Orientation) (stance : ℚ) (flying : Bool)
  deriving DecidableEq, Repr

/-- `Player.sendChunks`: two passes of the half-open window
`z ∈ [playerZ-10, playerZ+10)` (outer), `x ∈ [playerX-10, playerX+10)`
(inner) around the player's chunk — first `WritePreChunk(x, z, true)` for
every coordinate, then `WriteMapChunk` of `chunkManager.Get(x, z)` in the
same order. -/
def Player.sendChunks (player : Player) : List Packet :=
  let playerX := Int.tdiv (goInt player.position.x) ChunkSizeX
  let playerZ := Int.tdiv (goInt player.position.z) ChunkSizeZ
  ((chunk.intRange (playerZ - chunkRadius) (playerZ + chunkRadius)).flatMap fun z =>
    (chunk.intRange (playerX - chunkRadius) (playerX + chunkRadius)).map fun x =>
      Packet.preChunk x z true)
  ++ ((chunk.intRange (playerZ - chunkRadius) (playerZ + chunkRadius)).flatMap fun z =>
    (chunk.intRange (playerX - chunkRadius) (playerX + chunkRadius)).map fun x =>
      Packet.mapChunk x z)

/-- `Player.postLogin`: one buffer holding the spawn-position packet, the
`sendChunks` stream, the inventory snapshot and the position/orientation
packet (stance 0, on-ground false), enqueued as a single slice. -/
def Player.postLogin (player : Player) : List Packet :=
  [Packet.spawnPosition player.position]
  ++ player.sendChunks
  ++ [Packet.playerInventory,
      Packet.playerPositionLook player.position player.orientation 0 false]

/-- The freshly admitted player of `StartPlayer`: position
`StartPosition`, orientation `{0, 0}`. -/
def startPlayer : Player :=
  { position := StartPosition, orientation := { rotation := 0, pitch := 0 } }

/-- Recognises a pre-chunk announcement packet. -/
def isPreChunk : Packet → Bool
  | .preChunk .. => true
  | _ => false

/-- Recognises a map-chunk payload packet. -/
def isMapChunk : Packet → Bool
  | .mapChunk .. => true
  | _ => false

end player

/-! ## Supporting lemmas -/

namespace proto

theorem natToBytes_length (n p : Nat) : (natToBytes n p).length = n := by
  induction n generalizing p with
  | zero => rfl
  | succ n ih => simp [natToBytes, ih]

theorem bytesToNat_append (l : List Nat) (b : Nat) :
    bytesToNat (l ++ [b]) = bytesToNat l * 256 + b := by
  simp [bytesToNat, List.foldl_append]

theorem bytesToNat_natToBytes (n p : Nat) (h : p < 256 ^ n) :
    bytesToNat (natToBytes n p) = p := by
  induction n generalizing p with
  | zero =>
    interval_cases p
    rfl
  | succ n ih =>
    have hdiv : p / 256 < 256 ^ n := by
      rw [Nat.div_lt_iff_lt_mul (by norm_num)]
      calc p < 256 ^ (n + 1) := h
        _ = 256 ^ n * 256 := by ring
    rw [natToBytes, bytesToNat_append, ih _ hdiv]
    omega

theorem readBytes_append (n : Nat) (l tail : List Nat) (h : l.length = n) :
    readBytes n (l ++ tail) = (Except.ok l, tail) := by
  subst h
  rw [readBytes, if_pos (by simp), List.take_left, List.drop_left]

theorem utf8CpLen_pos (c : Nat) : 1 ≤ utf8CpLen c := by
  unfold utf8CpLen
  split_ifs <;> omega

theorem length_le_utf8Len (cps : List Nat) : cps.length ≤ utf8Len cps := by
  induction cps with
  | nil => simp [utf8Len]
  | cons c rest ih =>
    have := utf8CpLen_pos c
    simp only [utf8Len, List.map_cons, List.sum_cons, List.length_cons] at *
    omega

theorem utf8Len_ascii (cps : List Nat) (h : ∀ c ∈ cps, c < 128) :
    utf8Len cps = cps.length := by
  induction cps with
  | nil => rfl
  | cons c rest ih =>
    have hc : c < 128 := h c (by simp)
    simp only [utf8Len, List.map_cons, List.sum_cons] at *
    rw [ih fun x hx => h x (by simp [hx])]
    simp only [utf8CpLen, if_pos hc, List.length_cons]
    omega

theorem decodeUtf8_bmp (cps : List Nat) (h : ∀ c ∈ cps, c < 0x10000) :
    decodeUtf8 cps = cps := by
  induction cps with
  | nil => rfl
  | cons c rest ih =>
    have hc : c < 0x10000 := h c (by simp)
    rw [decodeUtf8, if_pos hc, ih fun x hx => h x (by simp [hx])]

theorem encodeUtf8_below_surrogates (us : List Nat) (h : ∀ u ∈ us, u < 0xD800) :
    encodeUtf8 us = us := by
  induction us with
  | nil => rfl
  | cons u rest ih =>
    have hu : u < 0xD800 := h u (by simp)
    match rest with
    | [] => rfl
    | u2 :: rest2 =>
      rw [encodeUtf8, if_neg (by omega), ih fun x hx => h x (by simp [hx])]

theorem unitsToBytes_length (us : List Nat) : (unitsToBytes us).length = 2 * us.length := by
  induction us with
  | nil => rfl
  | cons u rest ih => simp [unitsToBytes, natToBytes_length, ih]; omega

theorem bytesToUnits_unitsToBytes (us : List Nat) (h : ∀ u ∈ us, u < 65536) :
    bytesToUnits (unitsToBytes us) = us := by
  induction us with
  | nil => rfl
  | cons u rest ih =>
    have hu : u < 65536 := h u (by simp)
    have : natToBytes 2 u = [u / 256 % 256, u % 256] := by simp [natToBytes]
    rw [unitsToBytes, this]
    show (u / 256 % 256 * 256 + u % 256) :: bytesToUnits (unitsToBytes rest) = u :: rest
    rw [ih fun x hx => h x (by simp [hx])]
    congr 1
    omega

end proto

namespace inventory

theorem wrap_eq_self (w : Nat) (n : Int) (hw : 1 ≤ w)
    (h1 : -(2 ^ (w - 1)) ≤ n) (h2 : n < 2 ^ (w - 1)) : wrap w n = n := by
  unfold wrap
  have hpow : (2 : Int) ^ w = 2 ^ (w - 1) * 2 := by
    conv_lhs => rw [show w = (w - 1) + 1 from by omega]
    rw [pow_succ]
  rw [hpow, Int.emod_eq_of_lt (by omega) (by omega)]
  omega

theorem Slot.AddAtWidth_eq_Add (w : Nat) (s src : Slot) (hw : 1 ≤ w)
    (hcap : 2 * SlotQuantityMax < 2 ^ (w - 1))
    (hs0 : 0 ≤ s.Quantity) (hs1 : s.Quantity ≤ SlotQuantityMax)
    (ht0 : 0 ≤ src.Quantity) (ht1 : src.Quantity ≤ SlotQuantityMax) :
    Slot.AddAtWidth w s src = Slot.Add s src := by
  have hQ : SlotQuantityMax = (64 : Int) := rfl
  rw [hQ] at hcap hs1 ht1
  unfold Slot.AddAtWidth Slot.Add
  dsimp only
  have hA : wrap w (s.Quantity + src.Quantity) = s.Quantity + src.Quantity :=
    wrap_eq_self w _ hw (by omega) (by omega)
  rw [hA]
  split_ifs with h1 h2 h3 h4
  · rfl
  · rfl
  · rfl
  · rw [wrap_eq_self w (SlotQuantityMax - s.Quantity) hw (by rw [hQ]; omega)
      (by rw [hQ]; omega)]
    rw [wrap_eq_self w (s.Quantity + (SlotQuantityMax - s.Quantity)) hw (by rw [hQ]; omega)
      (by rw [hQ]; omega)]
    rw [wrap_eq_self w (src.Quantity - (SlotQuantityMax - s.Quantity)) hw
      (by rw [hQ] at h4 ⊢; omega) (by rw [hQ] at h4 ⊢; omega)]
  · rw [hA, wrap_eq_self w (src.Quantity - src.Quantity) hw (by omega) (by omega)]

theorem add_conserves (s src : Slot) :
    (Slot.Add s src).1.Quantity + (Slot.Add s src).2.Quantity
      = s.Quantity + src.Quantity := by
  unfold Slot.Add Slot.setQuantity
  dsimp only
  split_ifs <;> dsimp only <;> omega

end inventory

/-! ## Claim theorems -/

open proto inventory chunk player

/-- C5: when the 2-byte length word of a string field has a negative
signed-16-bit value, `ReadPacket` returns the negative-length error and
consumes exactly the two length bytes, no more. -/
theorem C5_negative_length_consumes_two (b0 b1 : Nat) (rest : List Nat)
    (hneg : 128 ≤ b0) (hb0 : b0 < 256) (hb1 : b1 < 256) :
    ReadPacket [FieldType.stringF] (b0 :: b1 :: rest)
      = (Except.error Err.negativeLength, rest) := by
  have h2 : readBytes 2 (b0 :: b1 :: rest) = (Except.ok [b0, b1], rest) :=
    readBytes_append 2 [b0, b1] rest rfl
  have hlen : 0x8000 ≤ bytesToNat [b0, b1] := by
    show 0x8000 ≤ (0 * 256 + b0) * 256 + b1
    omega
  simp [ReadPacket, readData, h2, hlen]

/-- Witness for C5 at the concrete stream `80 00 05`: the error is
reported and only the two length bytes are consumed. -/
theorem C5_witness :
    ReadPacket [FieldType.stringF] [0x80, 0, 5] = (Except.error Err.negativeLength, [5]) :=
  C5_negative_length_consumes_two 0x80 0 [5] (by decide) (by decide) (by decide)

/-- C1, at the failing input: the single-string-field record holding
`"Ā"` (U+0100, one code point, two UTF-8 bytes, one UTF-16 code unit)
encodes successfully — to a length word of 2 (the UTF-8 byte count)
followed by ONE code unit — and decoding those bytes then fails with a
short read instead of returning the record, because `readData` interprets
the length word as a code-unit count. -/
theorem C1_roundtrip_fails_at_u0100 :
    (WritePacket [FieldValue.strV [0x100]] []).1 = Except.ok () ∧
    (WritePacket [FieldValue.strV [0x100]] []).2 = [0, 2, 1, 0] ∧
    ReadPacket [FieldType.stringF] (WritePacket [FieldValue.strV [0x100]] []).2
      = (Except.error Err.shortRead, []) :=
  ⟨rfl, rfl, rfl⟩

/-- C7: a failed load is returned as nil and never cached — the map is
unchanged, and a second `Get` for the same coordinate consults the
external store again (the third component records a store invocation). -/
theorem C7_load_failure_not_cached (store : ChunkStore) (chunks : ChunkMap) (loc : ChunkXz)
    (hmiss : List.lookup (ChunkKey loc) chunks = none)
    (hfail : store loc = none) :
    Get store chunks loc = (none, chunks, true) ∧
    Get store (Get store chunks loc).2.1 loc = (none, chunks, true) := by
  constructor <;> simp [Get, hmiss, hfail]

/-- Witness for C7 on the always-failing store, the empty map and the
origin chunk. -/
theorem C7_witness :
    Get (fun _ => none) [] ⟨0, 0⟩ = (none, [], true) ∧
    Get (fun _ => none) (Get (fun _ => none) [] ⟨0, 0⟩).2.1 ⟨0, 0⟩ = (none, [], true) :=
  C7_load_failure_not_cached (fun _ => none) [] ⟨0, 0⟩ rfl rfl

/-- C8 counterexample: the position handler does not store the received
position — after handling a movement packet carrying `(1, 2, 3)` the
session still holds the spawn position, where the claim requires the
stored position to have become `(1, 2, 3)`. -/
theorem C8_cex_position_not_updated :
    (Player.PacketPlayerPosition startPlayer ⟨1, 2, 3⟩ 4 false).position ≠ XYZ.mk 1 2 3 := by
  intro h
  have hx : (8.5 : ℚ) = 1 := congrArg XYZ.x h
  norm_num at hx

/-- C8 amended: the inbound position and look handlers log the received
values and leave the session's stored position and orientation entirely
unchanged; no clamping is applied anywhere. -/
theorem C8_handlers_leave_state_unchanged (p : Player) (pos : XYZ) (stance : ℚ)
    (f1 : Bool) (o : Orientation) (f2 : Bool) :
    Player.PacketPlayerPosition p pos stance f1 = p ∧
    Player.PacketPlayerLook p o f2 = p :=
  ⟨rfl, rfl⟩

/-- C9 counterexample: `ItemCount` is a fixed-width Go type, so its
addition wraps.  At each plausible width (16, 32, 64 bits — all meeting
the source NOTE's capacity assumption), slots with non-negative
quantities 63 and the type maximum make `s.Quantity+toTransfer` wrap to
a negative value, the `> SlotQuantityMax` clamp is skipped, and the
summed quantity is not conserved — although the claim's hypotheses
(non-negativity only) admit these inputs. -/
theorem C9_cex_wrapped_overflow :
    ((0 : Int) ≤ 63 ∧ (0 : Int) ≤ 32767 ∧
      (Slot.AddAtWidth 16 ⟨5, 63, 0⟩ ⟨5, 32767, 0⟩).1.Quantity
        + (Slot.AddAtWidth 16 ⟨5, 63, 0⟩ ⟨5, 32767, 0⟩).2.Quantity
        ≠ 63 + 32767) ∧
    ((0 : Int) ≤ 63 ∧ (0 : Int) ≤ 2147483647 ∧
      (Slot.AddAtWidth 32 ⟨5, 63, 0⟩ ⟨5, 2147483647, 0⟩).1.Quantity
        + (Slot.AddAtWidth 32 ⟨5, 63, 0⟩ ⟨5, 2147483647, 0⟩).2.Quantity
        ≠ 63 + 2147483647) ∧
    ((0 : Int) ≤ 63 ∧ (0 : Int) ≤ 9223372036854775807 ∧
      (Slot.AddAtWidth 64 ⟨5, 63, 0⟩ ⟨5, 9223372036854775807, 0⟩).1.Quantity
        + (Slot.AddAtWidth 64 ⟨5, 63, 0⟩ ⟨5, 9223372036854775807, 0⟩).2.Quantity
        ≠ 63 + 9223372036854775807) := by
  decide

/-- C9 amended: `Slot.Add` conserves the summed quantity of the two
slots, items transferred or not, for every pair of slots whose
quantities lie in `[0, SlotQuantityMax]` — the domain on which every
`ItemCount` intermediate stays within the capacity the source NOTE
assumes (`2*SlotQuantityMax` representable), so the fixed-width
arithmetic never wraps, at whatever width `w` the `ItemCount` type
has. -/
theorem C9_add_conserves_quantity (w : Nat) (s src : Slot) (hw : 1 ≤ w)
    (hcap : 2 * SlotQuantityMax < 2 ^ (w - 1))
    (hs0 : 0 ≤ s.Quantity) (hs1 : s.Quantity ≤ SlotQuantityMax)
    (ht0 : 0 ≤ src.Quantity) (ht1 : src.Quantity ≤ SlotQuantityMax) :
    (Slot.AddAtWidth w s src).1.Quantity + (Slot.AddAtWidth w s src).2.Quantity
      = s.Quantity + src.Quantity := by
  rw [Slot.AddAtWidth_eq_Add w s src hw hcap hs0 hs1 ht0 ht1]
  exact add_conserves s src

/-- Witness for C9 at width 16: pouring a stack of 40 onto a stack of 30
of the same item caps the destination at 64 and leaves 6 behind; the sum
is 70 either way. -/
theorem C9_witness :
    (Slot.AddAtWidth 16 ⟨5, 30, 0⟩ ⟨5, 40, 0⟩).1.Quantity
      + (Slot.AddAtWidth 16 ⟨5, 30, 0⟩ ⟨5, 40, 0⟩).2.Quantity = (30 : Int) + 40 :=
  C9_add_conserves_quantity 16 ⟨5, 30, 0⟩ ⟨5, 40, 0⟩ (by decide) (by decide)
    (by decide) (by decide) (by decide) (by decide)

/-- C10: `Slot.Init` establishes the normalisation invariant (an empty
slot holds the null item and zero uses), and `Slot.Add` preserves it for
both slots whenever its arguments satisfy it with quantities in
`[0, SlotQuantityMax]`. -/
theorem C10_invariant_init_and_add :
    slotInv Slot.Init ∧
    ∀ s src : Slot, slotInv s → slotInv src →
      0 ≤ s.Quantity → s.Quantity ≤ SlotQuantityMax →
      0 ≤ src.Quantity → src.Quantity ≤ SlotQuantityMax →
      slotInv (Slot.Add s src).1 ∧ slotInv (Slot.Add s src).2 := by
  refine ⟨fun _ => ⟨rfl, rfl⟩, fun s src hs hsrc _ _ _ _ => ?_⟩
  unfold Slot.Add Slot.setQuantity slotInv
  dsimp only
  split_ifs <;> constructor <;> intro hq <;> dsimp only at hq ⊢ <;>
    first
      | (exact hs hq)
      | (exact hsrc hq)
      | (refine ⟨rfl, rfl⟩)
      | omega

/-- Witness for C10: merging two part stacks of the same item preserves
the invariant on both result slots. -/
theorem C10_witness :
    slotInv (Slot.Add ⟨5, 30, 0⟩ ⟨5, 40, 0⟩).1 ∧ slotInv (Slot.Add ⟨5, 30, 0⟩ ⟨5, 40, 0⟩).2 :=
  C10_invariant_init_and_add.2 ⟨5, 30, 0⟩ ⟨5, 40, 0⟩
    (fun h => absurd h (by decide)) (fun h => absurd h (by decide))
    (by decide) (by decide) (by decide) (by decide)

/-- C4 counterexample: a string of 20 000 code points U+0100 emits only
20 000 code units — not more than 32 767 — yet encoding fails with
`StringTooLong`, because `writeData` compares the UTF-8 *byte* length
(40 000 here) against 32 767, not the emitted code-unit count. -/
theorem C4_cex_fails_despite_few_units :
    (decodeUtf8 (List.replicate 20000 0x100)).length ≤ 32767 ∧
    (writeData (FieldValue.strV (List.replicate 20000 0x100)) []).1
      = Except.error Err.strTooLong := by
  have hlen : utf8Len (List.replicate 20000 0x100) = 40000 := by
    have h2 : utf8CpLen 0x100 = 2 := by norm_num [utf8CpLen]
    rw [utf8Len, List.map_replicate, h2, List.sum_replicate, smul_eq_mul]
  constructor
  · rw [decodeUtf8_bmp _ (fun c hc => by
      rw [List.eq_of_mem_replicate hc]; norm_num)]
    rw [List.length_replicate]
    norm_num
  · simp only [writeData, hlen]
    norm_num

/-- C4 amended: encoding a string field fails with `StringTooLong`
exactly when the UTF-8 byte length of the string exceeds 32 767 (not the
emitted code-unit count), nothing is appended to the output stream when
it fails, and any string of 40 000 code points fails this way (each code
point takes at least one UTF-8 byte). -/
theorem C4_string_too_long (cps : List Nat) (buf : List Nat) :
    (32767 < utf8Len cps →
      writeData (FieldValue.strV cps) buf = (Except.error Err.strTooLong, buf)) ∧
    (utf8Len cps ≤ 32767 → (writeData (FieldValue.strV cps) buf).1 = Except.ok ()) ∧
    (cps.length = 40000 →
      writeData (FieldValue.strV cps) buf = (Except.error Err.strTooLong, buf)) := by
  refine ⟨fun h => by simp [writeData, h], fun h => by simp [writeData, Nat.not_lt.mpr h], ?_⟩
  intro h40
  have : 32767 < utf8Len cps := by
    have := length_le_utf8Len cps
    omega
  simp [writeData, this]

/-- Witness for C4 on a 40 000-character ASCII string: the write fails
and the buffer is untouched. -/
theorem C4_witness :
    writeData (FieldValue.strV (List.replicate 40000 65)) []
      = (Except.error Err.strTooLong, []) :=
  (C4_string_too_long (List.replicate 40000 65) []).2.2 (List.length_replicate 40000 65)

/-- The post-login packet stream of the freshly admitted player, written
out: the starting chunk is `(0, 0)` and the streamed window is the
half-open square `[-10, 10) × [-10, 10)`, Z outer, X inner. -/
theorem postLogin_start_eq :
    Player.postLogin startPlayer
      = [Packet.spawnPosition { x := 8.5, y := 65, z := 8.5 }]
        ++ ((chunk.intRange (-10) 10).flatMap fun z =>
            (chunk.intRange (-10) 10).map fun x => Packet.preChunk x z true)
        ++ ((chunk.intRange (-10) 10).flatMap fun z =>
            (chunk.intRange (-10) 10).map fun x => Packet.mapChunk x z)
        ++ [Packet.playerInventory,
            Packet.playerPositionLook { x := 8.5, y := 65, z := 8.5 }
              { rotation := 0, pitch := 0 } 0 false] := by
  have hx : Int.tdiv (goInt startPlayer.position.x) ChunkSizeX = 0 := by
    norm_num [goInt, startPlayer, StartPosition, ChunkSizeX]
    decide
  have hz : Int.tdiv (goInt startPlayer.position.z) ChunkSizeZ = 0 := by
    norm_num [goInt, startPlayer, StartPosition, ChunkSizeZ]
    decide
  unfold Player.postLogin Player.sendChunks
  rw [hx, hz]
  norm_num [chunkRadius]
  exact ⟨by norm_num [startPlayer, StartPosition], rfl⟩

/-- C2 counterexample: `postLogin` emits 400 pre-chunk packets (the
half-open 20×20 window `[c-10, c+10) × [c-10, c+10)`), not the
`(2R+1)² = 441` packets the claim states. -/
theorem C2_cex_prechunk_count :
    ((Player.postLogin startPlayer).filter isPreChunk).length ≠ 441 := by
  rw [postLogin_start_eq]
  decide

/-- C2 amended: immediately after admission, `postLogin` enqueues (in one
slice) the spawn-position packet for `(8.5, 65, 8.5)`, then
`(2R)² = 400` pre-chunk packets over the half-open window
`z ∈ [-10, 10)` (outer), `x ∈ [-10, 10)` (inner) around the starting
chunk `(0, 0)`, then 400 map-chunk packets in the same row-major order,
then the inventory snapshot, then the position/orientation packet
`((8.5, 65, 8.5), (0, 0))`. -/
theorem C2_postLogin_sequence :
    Player.postLogin startPlayer
      = [Packet.spawnPosition { x := 8.5, y := 65, z := 8.5 }]
        ++ ((chunk.intRange (-10) 10).flatMap fun z =>
            (chunk.intRange (-10) 10).map fun x => Packet.preChunk x z true)
        ++ ((chunk.intRange (-10) 10).flatMap fun z =>
            (chunk.intRange (-10) 10).map fun x => Packet.mapChunk x z)
        ++ [Packet.playerInventory,
            Packet.playerPositionLook { x := 8.5, y := 65, z := 8.5 }
              { rotation := 0, pitch := 0 } 0 false] ∧
    ((Player.postLogin startPlayer).filter isPreChunk).length = 400 ∧
    ((Player.postLogin startPlayer).filter isMapChunk).length = 400 :=
  ⟨postLogin_start_eq,
    by rw [postLogin_start_eq]; decide,
    by rw [postLogin_start_eq]; decide⟩

namespace chunk

theorem intRange_length (lo hi : Int) : (intRange lo hi).length = (hi - lo).toNat := by
  rw [intRange, List.length_map, List.length_range]

theorem intRange_nodup (lo hi : Int) : (intRange lo hi).Nodup := by
  rw [intRange]
  exact List.Nodup.map (fun a b hab => by omega) (List.nodup_range _)

theorem radius_fold_fst (store : ChunkStore) (coords : List ChunkXz) :
    ∀ (acc : List (ChunkXz × Option Chunk)) (m : ChunkMap),
      ((coords.foldl (radiusStep store) (acc, m)).1).map Prod.fst
        = acc.map Prod.fst ++ coords := by
  induction coords with
  | nil => intro acc m; simp
  | cons c cs ih =>
    intro acc m
    rw [List.foldl_cons,
      show radiusStep store (acc, m) c
          = (acc ++ [(c, (Get store m c).1)], (Get store m c).2.1) from rfl,
      ih]
    simp

theorem flatMap_const_length (zs : List Int) (f : Int → List ChunkXz) (k : Nat)
    (h : ∀ z, (f z).length = k) : (zs.flatMap f).length = zs.length * k := by
  induction zs with
  | nil => simp
  | cons z t ih => simp [List.flatMap_cons, h, ih]; ring

theorem specRadiusWindow_length (loc : ChunkXz) : (specRadiusWindow loc).length = 441 := by
  unfold specRadiusWindow ChunkRadius
  rw [flatMap_const_length _ _ 21
    (fun z => by rw [List.length_map, intRange_length]; omega)]
  rw [intRange_length]
  omega

theorem window_nodup (zs xs : List Int) (hz : zs.Nodup) (hx : xs.Nodup) :
    (zs.flatMap fun z => xs.map fun x => ChunkXz.mk x z).Nodup := by
  induction zs with
  | nil => simp
  | cons z t ih =>
    rw [List.flatMap_cons, List.nodup_append]
    obtain ⟨hzm, ht⟩ := List.nodup_cons.mp hz
    refine ⟨List.Nodup.map ?_ hx, ih ht, ?_⟩
    · intro a b hab
      exact ((ChunkXz.mk.injEq _ _ _ _).mp hab).1
    · intro a ha hb
      obtain ⟨x, _, rfl⟩ := List.mem_map.mp ha
      obtain ⟨z', hz', hmem⟩ := List.mem_flatMap.mp hb
      obtain ⟨x', _, heq⟩ := List.mem_map.mp hmem
      exact hzm (((ChunkXz.mk.injEq _ _ _ _).mp heq).2 ▸ hz')

theorem specRadiusWindow_nodup (loc : ChunkXz) : (specRadiusWindow loc).Nodup :=
  window_nodup _ _ (intRange_nodup _ _) (intRange_nodup _ _)

end chunk

set_option maxHeartbeats 2000000 in
/-- C6 counterexample: with a store that fails every load, starting from
the empty map, `ChunksInRadius` still sends `(2R+1)² = 441` values on the
channel — every one of them nil — where the claim says fewer chunks are
yielded when loads fail. -/
theorem C6_cex_failed_loads_still_yielded :
    (ChunksInRadius (fun _ => none) [] ⟨0, 0⟩).1.length = 441 ∧
    ((ChunksInRadius (fun _ => none) [] ⟨0, 0⟩).1.all fun p => p.2.isNone) = true := by
  constructor <;> decide

/-- C6 amended: for every centre coordinate (modelled on the
non-overflowing `int32` range), every store and every starting map,
`ChunksInRadius` sends exactly `(2R+1)² = 441` values, one per
coordinate of the row-major window (Z outer loop, X inner loop), with no
coordinate yielded twice; a failed load is sent as nil rather than
skipped, so the count does not drop when loads fail. -/
theorem C6_radius_window (store : ChunkStore) (chunks : ChunkMap) (loc : ChunkXz) :
    ((ChunksInRadius store chunks loc).1).map Prod.fst = specRadiusWindow loc ∧
    ((ChunksInRadius store chunks loc).1).length = 441 ∧
    (((ChunksInRadius store chunks loc).1).map Prod.fst).Nodup := by
  have hfst : ((ChunksInRadius store chunks loc).1).map Prod.fst = specRadiusWindow loc := by
    show ((List.foldl (radiusStep store) ([], chunks) (specRadiusWindow loc)).1).map Prod.fst
      = specRadiusWindow loc
    rw [chunk.radius_fold_fst store (specRadiusWindow loc) [] chunks]
    simp
  refine ⟨hfst, ?_, hfst ▸ chunk.specRadiusWindow_nodup loc⟩
  have h2 := congrArg List.length hfst
  rw [List.length_map] at h2
  rw [h2, chunk.specRadiusWindow_length]

namespace proto

theorem writeData_shape (v : FieldValue) (buf : List Nat) :
    writeData v buf = ((writeData v []).1, buf ++ (writeData v []).2) := by
  cases v <;> simp [writeData]
  split <;> simp

theorem writeData_ok (v : FieldValue) (h : wfAscii v = true) :
    (writeData v []).1 = Except.ok () := by
  cases v
  case strV cps =>
    simp only [wfAscii, Bool.and_eq_true, List.all_eq_true, decide_eq_true_eq] at h
    obtain ⟨hascii, hlen⟩ := h
    have hl : utf8Len cps = cps.length := utf8Len_ascii cps (fun c hc => hascii c hc)
    simp only [writeData, hl]
    rw [if_neg (by omega)]
  all_goals rfl

theorem readScalar_roundtrip (n : Nat) (mk : Nat → FieldValue) (p : Nat)
    (hp : p < 256 ^ n) (tail : List Nat) :
    readScalar n mk (natToBytes n p ++ tail) = (Except.ok (mk p), tail) := by
  unfold readScalar
  rw [readBytes_append n _ _ (natToBytes_length n p)]
  simp [bytesToNat_natToBytes n p hp]

theorem readData_string (len : Nat) (ub tail : List Nat)
    (hlen : len < 32768) (hub : ub.length = 2 * len) :
    readData FieldType.stringF (natToBytes 2 len ++ (ub ++ tail))
      = (Except.ok (FieldValue.strV (encodeUtf8 (bytesToUnits ub))), tail) := by
  simp only [readData]
  rw [readBytes_append 2 _ _ (natToBytes_length 2 _)]
  dsimp only
  rw [bytesToNat_natToBytes 2 len (by norm_num; omega)]
  rw [if_neg (by omega)]
  rw [readBytes_append (2 * len) ub tail hub]

theorem readData_writeData (v : FieldValue) (h : wfAscii v = true) (tail : List Nat) :
    readData (typeOf v) ((writeData v []).2 ++ tail) = (Except.ok v, tail) := by
  cases v
  case boolV b =>
    have hb : (writeData (FieldValue.boolV b) []).2 = [if b then 1 else 0] := by
      cases b <;> rfl
    rw [hb]
    show readData FieldType.boolF ([if b then 1 else 0] ++ tail) = _
    simp only [readData]
    rw [readBytes_append 1 [if b then 1 else 0] tail rfl]
    cases b <;> rfl
  case int8V p =>
    exact readScalar_roundtrip 1 _ p (by simp [wfAscii] at h; norm_num; omega) tail
  case int16V p =>
    exact readScalar_roundtrip 2 _ p (by simp [wfAscii] at h; norm_num; omega) tail
  case int32V p =>
    exact readScalar_roundtrip 4 _ p (by simp [wfAscii] at h; norm_num; omega) tail
  case int64V p =>
    exact readScalar_roundtrip 8 _ p (by simp [wfAscii] at h; norm_num; omega) tail
  case uint8V p =>
    exact readScalar_roundtrip 1 _ p (by simp [wfAscii] at h; norm_num; omega) tail
  case uint16V p =>
    exact readScalar_roundtrip 2 _ p (by simp [wfAscii] at h; norm_num; omega) tail
  case uint32V p =>
    exact readScalar_roundtrip 4 _ p (by simp [wfAscii] at h; norm_num; omega) tail
  case uint64V p =>
    exact readScalar_roundtrip 8 _ p (by simp [wfAscii] at h; norm_num; omega) tail
  case float32V p =>
    exact readScalar_roundtrip 4 _ p (by simp [wfAscii] at h; norm_num; omega) tail
  case float64V p =>
    exact readScalar_roundtrip 8 _ p (by simp [wfAscii] at h; norm_num; omega) tail
  case strV cps =>
    simp only [wfAscii, Bool.and_eq_true, List.all_eq_true, decide_eq_true_eq] at h
    obtain ⟨hascii, hlen⟩ := h
    have hl : utf8Len cps = cps.length := utf8Len_ascii cps (fun c hc => hascii c hc)
    have hdec : decodeUtf8 cps = cps :=
      decodeUtf8_bmp cps (fun c hc => by have := hascii c hc; omega)
    have henc : encodeUtf8 cps = cps :=
      encodeUtf8_below_surrogates cps (fun c hc => by have := hascii c hc; omega)
    have hunits : bytesToUnits (unitsToBytes cps) = cps :=
      bytesToUnits_unitsToBytes cps (fun c hc => by have := hascii c hc; omega)
    have hw : (writeData (FieldValue.strV cps) []).2
        = natToBytes 2 cps.length ++ unitsToBytes cps := by
      simp only [writeData, hl, hdec]
      rw [if_neg (by omega)]
      rfl
    rw [hw, List.append_assoc]
    show readData FieldType.stringF (natToBytes 2 cps.length ++ (unitsToBytes cps ++ tail)) = _
    rw [readData_string cps.length (unitsToBytes cps) tail hlen (unitsToBytes_length cps)]
    rw [hunits, henc]

theorem WritePacket_shape (vs : List FieldValue) :
    ∀ buf, WritePacket vs buf = ((WritePacket vs []).1, buf ++ (WritePacket vs []).2) := by
  induction vs with
  | nil => intro buf; simp [WritePacket]
  | cons v t ih =>
    intro buf
    cases hw : writeData v [] with
    | mk st d =>
      have hbuf : writeData v buf = (st, buf ++ d) := by
        rw [writeData_shape v buf, hw]
      cases st with
      | ok u =>
        simp only [WritePacket, hbuf, hw]
        rw [ih (buf ++ d), ih d]
        simp
      | error e =>
        simp only [WritePacket, hbuf, hw]

theorem roundtrip_ascii (vs : List FieldValue) (h : vs.all wfAscii = true) :
    (WritePacket vs []).1 = Except.ok () ∧
    ∀ tail, ReadPacket (vs.map typeOf) ((WritePacket vs []).2 ++ tail)
      = (Except.ok vs, tail) := by
  induction vs with
  | nil => exact ⟨rfl, fun tail => by simp [WritePacket, ReadPacket]⟩
  | cons v t ih =>
    rw [List.all_cons, Bool.and_eq_true] at h
    obtain ⟨hv, ht⟩ := h
    obtain ⟨iw, ir⟩ := ih ht
    have hsplit : writeData v [] = (Except.ok (), (writeData v []).2) := by
      rw [← writeData_ok v hv]
    have hww : WritePacket (v :: t) []
        = ((WritePacket t []).1, (writeData v []).2 ++ (WritePacket t []).2) := by
      simp only [WritePacket]
      rw [hsplit]
      exact WritePacket_shape t ((writeData v []).2)
    refine ⟨by rw [hww, iw], fun tail => ?_⟩
    rw [hww]
    show ReadPacket (typeOf v :: t.map typeOf) _ = _
    simp only [ReadPacket]
    rw [List.append_assoc, readData_writeData v hv ((WritePacket t []).2 ++ tail)]
    dsimp only
    rw [ir tail]

end proto

/-- C3 counterexample: `ReadPacket` accepts the byte string `02` for a
one-bool-field record (any non-zero byte decodes to `true`), but
re-encoding the decoded record emits `01`, not `02` — re-encoding is not
bit-exact on every accepted byte string. -/
theorem C3_cex_bool_byte_two :
    ReadPacket [FieldType.boolF] [2] = (Except.ok [FieldValue.boolV true], []) ∧
    (WritePacket [FieldValue.boolV true] []).2 ≠ [2] :=
  ⟨rfl, by decide⟩

/-- C3 amended: re-encoding after decoding is bit-exact on the canonical
byte strings — those arising as the encoding of a record whose integer
and float patterns fit their widths and whose strings are ASCII-only (so
in particular every bool byte is 0 or 1): for such a record, the written
bytes decode back to exactly the record with nothing left over, hence
re-encoding them reproduces the same byte string.  Outside this set
re-encoding differs: a bool byte ≥ 2 is re-encoded as 1, and a non-ASCII
string is re-encoded behind a different length word. -/
theorem C3_reencode_canonical (vs : List FieldValue) (h : vs.all wfAscii = true) :
    (WritePacket vs []).1 = Except.ok () ∧
    ReadPacket (vs.map typeOf) (WritePacket vs []).2 = (Except.ok vs, []) := by
  obtain ⟨hw, hr⟩ := roundtrip_ascii vs h
  refine ⟨hw, ?_⟩
  have := hr []
  rwa [List.append_nil] at this

/-- Witness for C3 on a record with a bool, an int16 and the ASCII string
`"hi"`: the encoding decodes back to the record with nothing left over. -/
theorem C3_witness :
    (WritePacket [FieldValue.boolV true, FieldValue.int16V 261,
        FieldValue.strV [104, 105]] []).1 = Except.ok () ∧
    ReadPacket [FieldType.boolF, FieldType.int16F, FieldType.stringF]
        (WritePacket [FieldValue.boolV true, FieldValue.int16V 261,
          FieldValue.strV [104, 105]] []).2
      = (Except.ok [FieldValue.boolV true, FieldValue.int16V 261,
          FieldValue.strV [104, 105]], []) :=
  C3_reencode_canonical
    [FieldValue.boolV true, FieldValue.int16V 261, FieldValue.strV [104, 105]]
    (by decide)
